import Mathlib

/-!
Verification development for the `bevy_register_in_world` crate.

The crate provides (src/lib.rs, src/add_systems.rs, src/component.rs,
src/app.rs, macros/src/lib.rs):

* a `RegisteredTypes` resource: a set of `TypeId`s of types whose
  `RegisterInWorld::register` callback has already run;
* `RegisterExtension::register::<T>` on `World` and `DeferredWorld`:
  check-and-mark the ledger, and on a fresh mark invoke `T::register`
  (the `World` version also inserts the ledger resource when absent and
  flushes queued commands afterwards);
* the `AddSystems` event plus the `AddingSystems` drain schedule: systems
  are requested from anywhere by enqueueing an `AddSystems(label, configs)`
  event (construction panics when `label` is the reserved `AddingSystems`
  label) and the drain system `add_requested_systems` consumes all queued
  events, merging each config bundle into the schedule named by its label;
* a derive macro wiring `register_on_add::<Self>` into the component's
  `on_add` hook, before any user-supplied `on_add` callback.

Shallow embedding conventions: `TypeId` is `Nat`; a `SystemConfigs`
bundle is opaque and represented by a `Nat` identifier; the hash set of
the ledger is a `List Nat` queried through `contains`; a Rust panic is an
`Option`/`Except` error value; the `calls` field of `MWorld` is
instrumentation recording each invocation of a `RegisterInWorld::register`
callback, and `hookCalls` of `HookedWorld` records each invocation of the
`register_on_add` integration point.
-/

namespace BevyRegisterInWorld

/-! ## Ledger: `RegisteredTypes` (src/lib.rs lines 106-128) -/

/-- `RegisteredTypes` resource: the set of registered `TypeId`s
(`HashSet<TypeId, NoOpHash>` in the source, membership-only use). -/
structure RegisteredTypes where
  types : List Nat
deriving DecidableEq

/-- `RegisteredTypes::is_registered::<T>`: `self.types.contains(&TypeId::of::<T>())`. -/
def RegisteredTypes.is_registered (r : RegisteredTypes) (t : Nat) : Bool :=
  r.types.contains t

/-- `RegisteredTypes::register::<T>`: `self.types.insert(TypeId::of::<T>())`;
`HashSet::insert` returns `true` iff the value was newly inserted.
Returned pair: (updated ledger, insertion result). -/
def RegisteredTypes.register (r : RegisteredTypes) (t : Nat) : RegisteredTypes × Bool :=
  if r.types.contains t then (r, false) else (⟨t :: r.types⟩, true)

/-- A sequence of `RegisteredTypes::register` calls, in order. -/
def applyRegisters : List Nat → RegisteredTypes → RegisteredTypes
  | [], r => r
  | u :: us, r => applyRegisters us (r.register u).1

theorem register_is_registered (r : RegisteredTypes) (u t : Nat) :
    (r.register u).1.is_registered t = (r.is_registered t || u == t) := by
  unfold RegisteredTypes.register RegisteredTypes.is_registered
  rcases eq_or_ne u t with hut | hut
  · subst hut
    by_cases h : u ∈ r.types
    · simp [h]
    · simp [h]
  · by_cases h : u ∈ r.types
    · simp [h, hut, hut.symm]
    · simp [h, hut, hut.symm]

theorem applyRegisters_is_registered (ts : List Nat) (r : RegisteredTypes) (t : Nat) :
    (applyRegisters ts r).is_registered t = (r.is_registered t || ts.contains t) := by
  induction ts generalizing r with
  | nil => simp [applyRegisters]
  | cons u us ih =>
    rw [applyRegisters, ih, register_is_registered]
    rcases eq_or_ne u t with hut | hut
    · subst hut; simp [List.contains_cons]
    · have h1 : (u == t) = false := by simpa using hut
      simp [List.contains_cons, h1, hut, hut.symm, Bool.or_assoc]

/-! ## System injection: `AddSystems` events and the drain
(src/add_systems.rs) -/

/-- A schedule label: either the reserved `AddingSystems` drain-phase label
or any other label (identified by a `Nat`). -/
inductive SLabel where
  | addingSystems : SLabel
  | other : Nat → SLabel
deriving DecidableEq

/-- The `AddSystems` event: an interned schedule label paired with a
`SystemConfigs` bundle (opaque, represented by a `Nat` identifier). -/
structure AddSystems where
  schedule : SLabel
  systems : Nat
deriving DecidableEq

/-- `AddSystems::new` (src/add_systems.rs lines 27-31): asserts that the
label is not `AddingSystems` (panic modelled as `none`), otherwise builds
the event. -/
def AddSystems.new (schedule : SLabel) (systems : Nat) : Option AddSystems :=
  if schedule = SLabel.addingSystems then none else some ⟨schedule, systems⟩

/-- The `Schedules` resource: an association list from labels to the list
of config bundles merged into that schedule, in merge order. A label
absent from the list is a schedule that does not exist yet. -/
abbrev Schedules := List (SLabel × List Nat)

/-- Look up a schedule by label. -/
def schedGet : Schedules → SLabel → Option (List Nat)
  | [], _ => none
  | (l', cs) :: rest, l => if l' = l then some cs else schedGet rest l

/-- `Schedules::add_systems(schedule, systems)`: merges the bundle into the
schedule with that label, creating the schedule if it does not exist. -/
def schedAddSystems : Schedules → SLabel → Nat → Schedules
  | [], l, s => [(l, [s])]
  | (l', cs) :: rest, l, s =>
    if l' = l then (l', cs ++ [s]) :: rest else (l', cs) :: schedAddSystems rest l s

/-- World state for the system-injection protocol: the
`ConsumableEvents<AddSystems>` queue (in submission order) and the
`Schedules` resource. -/
structure EventWorld where
  queue : List AddSystems
  schedules : Schedules
deriving DecidableEq

/-- `add_requested_systems` (src/add_systems.rs lines 41-48): reads and
consumes every queued `AddSystems` event in order, merging each into the
schedule named by its label. -/
def add_requested_systems (w : EventWorld) : EventWorld :=
  { queue := [],
    schedules := w.queue.foldl (fun sch ev => schedAddSystems sch ev.schedule ev.systems)
      w.schedules }

/-- `WorldAddSystems::add_systems` for `DeferredWorld`
(src/add_systems.rs lines 56-61): builds the event with `AddSystems::new`
and sends it. The `assert!` in `AddSystems::new` fires before `send`, so a
panic (`Except.error`) carries the world unchanged. -/
def deferredAddSystems (l : SLabel) (s : Nat) (w : EventWorld) :
    Except EventWorld EventWorld :=
  match AddSystems.new l s with
  | none => Except.error w
  | some ev => Except.ok { w with queue := w.queue ++ [ev] }

/-- `WorldAddSystems::add_systems` for `World` (src/add_systems.rs lines
63-68): delegates to the `DeferredWorld` implementation via
`Into::<DeferredWorld>::into(self)`. -/
def worldAddSystems (l : SLabel) (s : Nat) (w : EventWorld) :
    Except EventWorld EventWorld :=
  deferredAddSystems l s w

/-- Modelled from the spec: the spec (§6) says `add_systems` from the full
handle "branches to immediate scheduler mutation"; this definition follows
those words (mutate `Schedules` directly, no event), for comparison with
`worldAddSystems`, which is translated from the source. -/
def specImmediateAddSystems (l : SLabel) (s : Nat) (w : EventWorld) : EventWorld :=
  { w with schedules := schedAddSystems w.schedules l s }

/-- One full drain cycle of the `AddingSystems` schedule: the drain system
runs over the events queued before the cycle, while `during` holds the
events sent during the drain phase itself; per the persistent
consumable-event contract (spec §4.3, installed by
`add_persistent_consumable_event` in src/app.rs) those are not consumed by
this drain and remain queued. -/
def drainCycle (during : List AddSystems) (w : EventWorld) : EventWorld :=
  let w' := add_requested_systems w
  { w' with queue := w'.queue ++ during }

theorem schedGet_addSystems_self (sch : Schedules) (l : SLabel) (s : Nat) :
    schedGet (schedAddSystems sch l s) l = some ((schedGet sch l).getD [] ++ [s]) := by
  induction sch with
  | nil => simp [schedGet, schedAddSystems]
  | cons p rest ih =>
    obtain ⟨l', cs⟩ := p
    by_cases h : l' = l
    · subst h; simp [schedGet, schedAddSystems]
    · simp [schedGet, schedAddSystems, h, ih]

theorem schedGet_addSystems_other (sch : Schedules) (l : SLabel) (s : Nat) (l₂ : SLabel)
    (h : l ≠ l₂) :
    schedGet (schedAddSystems sch l s) l₂ = schedGet sch l₂ := by
  induction sch with
  | nil => simp [schedGet, schedAddSystems, h]
  | cons p rest ih =>
    obtain ⟨l', cs⟩ := p
    by_cases h' : l' = l
    · subst h'; simp [schedGet, schedAddSystems, h]
    · by_cases h₂ : l' = l₂
      · subst h₂; simp [schedGet, schedAddSystems, h', ih]
      · simp [schedGet, schedAddSystems, h', h₂, ih]

/-- The events of the queue targeting label `l`, in queue order. -/
def eventsFor (q : List AddSystems) (l : SLabel) : List AddSystems :=
  q.filter (fun e => e.schedule == l)

theorem drain_foldl_schedGet (q : List AddSystems) (sch : Schedules) (l : SLabel) :
    schedGet (q.foldl (fun acc ev => schedAddSystems acc ev.schedule ev.systems) sch) l =
      (if eventsFor q l = [] then schedGet sch l
       else some ((schedGet sch l).getD [] ++ (eventsFor q l).map AddSystems.systems)) := by
  induction q generalizing sch with
  | nil => simp [eventsFor]
  | cons e q ih =>
    rw [List.foldl_cons, ih]
    by_cases h : e.schedule = l
    · have hf : eventsFor (e :: q) l = e :: eventsFor q l := by
        simp [eventsFor, List.filter_cons, h]
      rw [hf, h, schedGet_addSystems_self]
      by_cases hq : eventsFor q l = []
      · simp [hq, h, hf]
      · simp [hq, h, hf, List.append_assoc]
    · have hf : eventsFor (e :: q) l = eventsFor q l := by
        simp [eventsFor, List.filter_cons, h]
      rw [hf, schedGet_addSystems_other _ _ _ _ h]

/-- C4: one execution of `add_requested_systems` consumes every queued
event (queue ends empty) and, per label `l`, the resulting schedule is the
old one (created empty when absent) with the configs of all events
targeting `l` merged in submission order; labels with no queued events are
untouched. -/
theorem C4_drain_applies_all_in_order (w : EventWorld) (l : SLabel) :
    (add_requested_systems w).queue = [] ∧
    schedGet (add_requested_systems w).schedules l =
      (if eventsFor w.queue l = [] then schedGet w.schedules l
       else some ((schedGet w.schedules l).getD [] ++
         (eventsFor w.queue l).map AddSystems.systems)) := by
  exact ⟨rfl, drain_foldl_schedGet w.queue w.schedules l⟩

/-- C5: events sent during the drain phase itself are not consumed by that
drain (the schedules after the drain do not depend on them), they persist
in the queue, and the next drain applies exactly them. -/
theorem C5_no_same_drain_feedback (during : List AddSystems) (w : EventWorld) :
    (drainCycle during w).schedules = (add_requested_systems w).schedules ∧
    (drainCycle during w).queue = during ∧
    add_requested_systems (drainCycle during w) =
      add_requested_systems
        { queue := during, schedules := (add_requested_systems w).schedules } := by
  refine ⟨rfl, by simp [drainCycle, add_requested_systems], rfl⟩

/-- C3: submitting an `AddSystems` request with the reserved
`AddingSystems` label panics in `AddSystems::new` before any queue
mutation (the error carries the world unchanged); `AddSystems::new` panics
exactly on the reserved label, and succeeds on every other label. -/
theorem C3_reserved_label_rejected :
    (∀ (s : Nat) (w : EventWorld),
      deferredAddSystems SLabel.addingSystems s w = Except.error w) ∧
    (∀ (l : SLabel) (s : Nat), AddSystems.new l s = none ↔ l = SLabel.addingSystems) ∧
    (∀ (n s : Nat), AddSystems.new (SLabel.other n) s = some ⟨SLabel.other n, s⟩) := by
  refine ⟨fun s w => rfl, fun l s => ?_, fun n s => rfl⟩
  unfold AddSystems.new
  by_cases h : l = SLabel.addingSystems <;> simp [h]

/-- C7 counterexample: `WorldAddSystems for World` does not mutate the
scheduler immediately — on a world with empty queue and no schedules it
enqueues the event and leaves `Schedules` untouched, unlike the spec's
"immediate scheduler mutation" (`specImmediateAddSystems`). -/
theorem C7_counterexample_world_defers :
    worldAddSystems (SLabel.other 0) 5 ⟨[], []⟩ =
      Except.ok ⟨[⟨SLabel.other 0, 5⟩], []⟩ ∧
    specImmediateAddSystems (SLabel.other 0) 5 ⟨[], []⟩ =
      ⟨[], [(SLabel.other 0, [5])]⟩ ∧
    (⟨[⟨SLabel.other 0, 5⟩], []⟩ : EventWorld) ≠ ⟨[], [(SLabel.other 0, [5])]⟩ := by
  exact ⟨rfl, rfl, by decide⟩

/-- C7 (amended): `add_systems` is callable from both handles, and the
`World` implementation delegates to the `DeferredWorld` implementation:
it enqueues the event and leaves the schedules unchanged (deferred, not
immediate, mutation). -/
theorem C7_world_add_systems_delegates :
    (∀ (l : SLabel) (s : Nat) (w : EventWorld),
      worldAddSystems l s w = deferredAddSystems l s w) ∧
    (∀ (l : SLabel) (s : Nat) (w w' : EventWorld),
      worldAddSystems l s w = Except.ok w' →
        w'.schedules = w.schedules ∧ w'.queue = w.queue ++ [⟨l, s⟩]) := by
  refine ⟨fun l s w => rfl, fun l s w w' h => ?_⟩
  unfold worldAddSystems deferredAddSystems AddSystems.new at h
  by_cases hl : l = SLabel.addingSystems
  · simp [hl] at h
  · simp only [hl, if_false] at h
    cases h
    exact ⟨rfl, rfl⟩

theorem C7_world_add_systems_delegates_witness :
    worldAddSystems (SLabel.other 1) 7 ⟨[], []⟩ =
      deferredAddSystems (SLabel.other 1) 7 ⟨[], []⟩ ∧
    ((⟨[⟨SLabel.other 1, 7⟩], []⟩ : EventWorld).schedules =
        (⟨[], []⟩ : EventWorld).schedules ∧
      (⟨[⟨SLabel.other 1, 7⟩], []⟩ : EventWorld).queue =
        (⟨[], []⟩ : EventWorld).queue ++ [⟨SLabel.other 1, 7⟩]) :=
  ⟨C7_world_add_systems_delegates.1 (SLabel.other 1) 7 ⟨[], []⟩,
    C7_world_add_systems_delegates.2 (SLabel.other 1) 7 ⟨[], []⟩
      ⟨[⟨SLabel.other 1, 7⟩], []⟩ rfl⟩

theorem register_snd (r : RegisteredTypes) (t : Nat) :
    (r.register t).2 = !(r.is_registered t) := by
  unfold RegisteredTypes.register RegisteredTypes.is_registered
  by_cases h : r.types.contains t <;> simp_all

/-- C2: `RegisteredTypes::register` returns `true` exactly when the type
was not yet registered (so `true` on the first call and `false` on every
later one), it marks the type, `is_registered` (a pure function of the
ledger by construction) is monotone under any sequence of `register`
calls — no operation removes an entry — and after any sequence containing
`t` a further `register` of `t` returns `false`. -/
theorem C2_ledger_first_call_and_monotone (r : RegisteredTypes) (t : Nat) (ts : List Nat) :
    (r.register t).2 = !(r.is_registered t) ∧
    (r.register t).1.is_registered t = true ∧
    (applyRegisters ts r).is_registered t = (r.is_registered t || ts.contains t) ∧
    ((applyRegisters ts r).register t).2 = (!(r.is_registered t) && !(ts.contains t)) := by
  refine ⟨register_snd r t, ?_, applyRegisters_is_registered ts r t, ?_⟩
  · rw [register_is_registered]; simp
  · rw [register_snd, applyRegisters_is_registered]; simp

/-- C8: distinct type identities are independent in the ledger —
registering `t` does not change `is_registered` for any `u ≠ t`, while it
does mark `t` itself. -/
theorem C8_distinct_identities_independent (r : RegisteredTypes) (t u : Nat) (h : t ≠ u) :
    (r.register t).1.is_registered u = r.is_registered u ∧
    (r.register t).1.is_registered t = true := by
  constructor
  · rw [register_is_registered]
    have hb : (t == u) = false := by simpa using h
    simp [hb]
  · rw [register_is_registered]; simp

theorem C8_distinct_identities_independent_witness :
    (0 : Nat) ≠ 1 ∧
    ((RegisteredTypes.mk []).register 0).1.is_registered 1 =
      (RegisteredTypes.mk []).is_registered 1 ∧
    ((RegisteredTypes.mk []).register 0).1.is_registered 0 = true :=
  ⟨by decide, C8_distinct_identities_independent ⟨[]⟩ 0 1 (by decide)⟩

/-! ## Type registration protocol: `RegisterExtension` for
`World` and `DeferredWorld` (src/lib.rs lines 130-156), and the components
integration (src/component.rs). -/

/-- World state for the registration protocol. `ledger` is the
`RegisteredTypes` resource (`none` when the resource is absent); `queued`
and `applied` model the world's command queue and the commands applied so
far (commands are opaque `Nat`s); `calls` is instrumentation: it records,
in order, the `TypeId` of every invocation of a `RegisterInWorld::register`
callback. -/
structure MWorld where
  ledger : Option RegisteredTypes
  queued : List Nat
  applied : List Nat
  calls : List Nat
deriving DecidableEq

/-- `World::flush_commands`: applies all queued commands, in order. -/
def flushCommands (w : MWorld) : MWorld :=
  { w with queued := [], applied := w.applied ++ w.queued }

/-- `RegisterExtension::register::<T>` for `DeferredWorld` (src/lib.rs
lines 137-145): `resource_mut::<RegisteredTypes>()` panics when the
resource is absent (modelled as `none`); otherwise check-and-mark, and on
a fresh mark invoke `T::register` (the callback family `cb`, applied to
the world in which `T` is already marked; the invocation is recorded in
`calls`). -/
def deferredRegister (cb : Nat → MWorld → MWorld) (t : Nat) (w : MWorld) : Option MWorld :=
  match w.ledger with
  | none => none
  | some r =>
    let res := r.register t
    if res.2 then
      some (cb t { w with ledger := some res.1, calls := w.calls ++ [t] })
    else
      some { w with ledger := some res.1 }

/-- `RegisterExtension::register::<T>` for `World` (src/lib.rs lines
147-156): `get_resource_or_insert_with` inserts a default (empty) ledger
when absent; on a fresh mark it invokes `T::register` and then flushes
queued commands. -/
def worldRegister (cb : Nat → MWorld → MWorld) (t : Nat) (w : MWorld) : MWorld :=
  let r := w.ledger.getD ⟨[]⟩
  let res := r.register t
  if res.2 then
    flushCommands (cb t { w with ledger := some res.1, calls := w.calls ++ [t] })
  else
    { w with ledger := some res.1 }

/-- Number of recorded invocations of `T`'s registration callback. -/
def countCalls (t : Nat) (w : MWorld) : Nat :=
  w.calls.count t

/-- Whether the ledger resource is present and contains `t`. -/
def ledgerContains (t : Nat) (w : MWorld) : Bool :=
  match w.ledger with
  | none => false
  | some r => r.is_registered t

/-- C6 counterexample: `DeferredWorld::register` is not panic-free for
every world state — on a world without the `RegisteredTypes` resource,
`resource_mut::<RegisteredTypes>()` panics (modelled as `none`), whatever
the callback is. -/
theorem C6_counterexample_panics_without_ledger :
    deferredRegister (fun _ w => w) 0 ⟨none, [], [], []⟩ = none := rfl

/-- C6 (amended): registration's own bookkeeping is infallible whenever
the `RegisteredTypes` resource is present — `DeferredWorld::register`
succeeds exactly when the resource exists (for any callback and any type),
and `World::register` (`worldRegister`, a total function into `MWorld`)
has no failure path at all since it inserts the resource when absent. -/
theorem C6_register_infallible_with_ledger (cb : Nat → MWorld → MWorld) (t : Nat)
    (w : MWorld) :
    (deferredRegister cb t w).isSome = w.ledger.isSome := by
  unfold deferredRegister
  cases w.ledger with
  | none => rfl
  | some r => simp only [Option.isSome_some]; split <;> rfl

/-- C10: `World::register::<T>` inserts a default empty ledger when the
resource is absent and proceeds to a fresh registration; when `T` is
already registered it returns the world unchanged (no callback, no
flush); when `T` is fresh it marks the ledger, invokes the callback on the
marked world, and flushes commands afterwards — and `flushCommands`
empties the queue, appending it to the applied commands, so commands
queued by the callback are applied before `register` returns. -/
theorem C10_world_register_cases (cb : Nat → MWorld → MWorld) (t : Nat) :
    (∀ q a c, worldRegister cb t ⟨none, q, a, c⟩ =
      flushCommands (cb t ⟨some ⟨[t]⟩, q, a, c ++ [t]⟩)) ∧
    (∀ r q a c, worldRegister cb t ⟨some r, q, a, c⟩ =
      if r.is_registered t then ⟨some r, q, a, c⟩
      else flushCommands (cb t ⟨some ⟨t :: r.types⟩, q, a, c ++ [t]⟩)) ∧
    (∀ v : MWorld, (flushCommands v).queued = [] ∧
      (flushCommands v).applied = v.applied ++ v.queued) := by
  refine ⟨fun q a c => ?_, fun r q a c => ?_, fun v => ⟨rfl, rfl⟩⟩
  · unfold worldRegister
    simp [RegisteredTypes.register]
  · unfold worldRegister
    by_cases h : r.is_registered t
    · have hm : t ∈ r.types := by
        simpa [RegisteredTypes.is_registered] using h
      simp [RegisteredTypes.register, hm, h]
    · have hm : t ∉ r.types := by
        simpa [RegisteredTypes.is_registered] using h
      simp [RegisteredTypes.register, hm, h]

/-! ## Derive-macro hook wiring (macros/src/lib.rs) -/

/-- A world seen by component hooks, with instrumentation recording each
invocation of the `register_on_add` integration point. -/
structure HookedWorld where
  world : MWorld
  hookCalls : List Nat
deriving DecidableEq

/-- `register_on_add::<T>` (src/component.rs lines 20-24): calls
`DeferredWorld::register::<T>`; the invocation itself is recorded in
`hookCalls`. -/
def register_on_add (cb : Nat → MWorld → MWorld) (t : Nat) (hw : HookedWorld) :
    Option HookedWorld :=
  (deferredRegister cb t hw.world).map (fun w' => ⟨w', hw.hookCalls ++ [t]⟩)

/-- The `on_add` hook emitted by `derive(ComponentAutoRegister)`
(`hook_register_on_add_call`, macros/src/lib.rs lines 142-154):
`register_on_add::<Self>(world.reborrow());` followed by the optional
user-supplied `on_add` callback. -/
def derivedOnAdd (cb : Nat → MWorld → MWorld) (t : Nat)
    (user : Option (MWorld → MWorld)) (hw : HookedWorld) : Option HookedWorld :=
  (register_on_add cb t hw).map (fun hw1 => { hw1 with world := (user.getD id) hw1.world })

/-- C9: the generated hook invokes the `register_on_add` integration point
exactly once per firing (exactly one entry is appended to `hookCalls`),
and the user-supplied `on_add` callback (if any) runs after it, on the
world `register_on_add` produced. -/
theorem C9_hook_calls_register_once_first (cb : Nat → MWorld → MWorld) (t : Nat)
    (user : Option (MWorld → MWorld)) (hw : HookedWorld) :
    derivedOnAdd cb t user hw =
      (deferredRegister cb t hw.world).map
        (fun w' => ⟨(user.getD id) w', hw.hookCalls ++ [t]⟩) ∧
    (∀ hw', derivedOnAdd cb t user hw = some hw' →
      hw'.hookCalls = hw.hookCalls ++ [t]) := by
  constructor
  · unfold derivedOnAdd register_on_add
    cases deferredRegister cb t hw.world <;> rfl
  · intro hw' h
    unfold derivedOnAdd register_on_add at h
    cases hd : deferredRegister cb t hw.world <;> rw [hd] at h
    · exact Option.noConfusion h
    · simp only [Option.map_some'] at h
      cases h
      rfl

theorem C9_hook_calls_register_once_first_witness :
    derivedOnAdd (fun _ x => x) 0 none ⟨⟨some ⟨[]⟩, [], [], []⟩, []⟩ =
      (deferredRegister (fun _ x => x) 0 (⟨some ⟨[]⟩, [], [], []⟩ : MWorld)).map
        (fun w' => ⟨(Option.getD none id) w', ([] : List Nat) ++ [0]⟩) ∧
    (⟨⟨some ⟨[0]⟩, [], [], [0]⟩, [0]⟩ : HookedWorld).hookCalls = ([] : List Nat) ++ [0] :=
  ⟨(C9_hook_calls_register_once_first (fun _ x => x) 0 none ⟨⟨some ⟨[]⟩, [], [], []⟩, []⟩).1,
    (C9_hook_calls_register_once_first (fun _ x => x) 0 none ⟨⟨some ⟨[]⟩, [], [], []⟩, []⟩).2
      ⟨⟨some ⟨[0]⟩, [], [], [0]⟩, [0]⟩ (by decide)⟩

/-! ## C1: the registration callback runs exactly once -/

theorem register_fst_of_true (r : RegisteredTypes) (v : Nat) (h : r.is_registered v = true) :
    (r.register v).1 = r := by
  unfold RegisteredTypes.register
  have hm : v ∈ r.types := by simpa [RegisteredTypes.is_registered] using h
  simp [hm]

theorem register_fst_of_false (r : RegisteredTypes) (v : Nat)
    (h : r.is_registered v = false) :
    (r.register v).1 = ⟨v :: r.types⟩ := by
  unfold RegisteredTypes.register
  have hm : v ∉ r.types := by simpa [RegisteredTypes.is_registered] using h
  simp [hm]

/-- The three call paths of C1: `World::register::<T>`,
`DeferredWorld::register::<T>`, and the on-add hook path
(`register_on_add::<T>`, src/component.rs, which calls
`DeferredWorld::register::<T>`). -/
inductive RegOp where
  | world : Nat → RegOp
  | deferred : Nat → RegOp
  | hook : Nat → RegOp
deriving DecidableEq

/-- The type identity targeted by a registration operation. -/
def RegOp.target : RegOp → Nat
  | .world t => t
  | .deferred t => t
  | .hook t => t

/-- Execute one registration operation. -/
def runOp (cb : Nat → MWorld → MWorld) : RegOp → MWorld → Option MWorld
  | .world t, w => some (worldRegister cb t w)
  | .deferred t, w => deferredRegister cb t w
  | .hook t, w => deferredRegister cb t w

/-- Execute a sequence of registration operations, in order. -/
def runOps (cb : Nat → MWorld → MWorld) : List RegOp → MWorld → Option MWorld
  | [], w => some w
  | op :: ops, w => (runOp cb op w).bind (runOps cb ops)

/-- Well-behaved registration-callback family: a callback may mutate the
world arbitrarily except that it touches the `RegisteredTypes` ledger only
through the library's own register API (possibly registering further
types, i.e. reentrancy). Stated consequences: it keeps the ledger resource
present and monotone; a type whose registration status it leaves unchanged
gets no new callback invocation recorded; a type it freshly registers gets
exactly one. Any composition of the library's operations satisfies this,
as does any callback that leaves the ledger alone. -/
def HCB (cb : Nat → MWorld → MWorld) : Prop :=
  ∀ v x s, x.ledger = some s →
    ∃ s', (cb v x).ledger = some s' ∧
      (∀ u, s.is_registered u = true → s'.is_registered u = true) ∧
      (∀ u, s'.is_registered u = s.is_registered u →
        countCalls u (cb v x) = countCalls u x) ∧
      (∀ u, s'.is_registered u = true → s.is_registered u = false →
        countCalls u (cb v x) = countCalls u x + 1)

/-- Invariant tying the ledger to the number of callback invocations of
`t`: the ledger is present, and `t` is either unregistered with zero
invocations recorded, or registered with exactly one. -/
def RegInv (t : Nat) (w : MWorld) : Prop :=
  ∃ r, w.ledger = some r ∧
    ((r.is_registered t = false ∧ countCalls t w = 0) ∨
     (r.is_registered t = true ∧ countCalls t w = 1))

/-- `t` is registered and its callback has run exactly once. -/
def RegDone (t : Nat) (w : MWorld) : Prop :=
  ∃ r, w.ledger = some r ∧ r.is_registered t = true ∧ countCalls t w = 1

theorem RegInv_flush (t : Nat) (x : MWorld) : RegInv t (flushCommands x) ↔ RegInv t x :=
  Iff.rfl

theorem RegDone_flush (t : Nat) (x : MWorld) : RegDone t (flushCommands x) ↔ RegDone t x :=
  Iff.rfl

theorem count_append_single (l : List Nat) (u v : Nat) :
    (l ++ [v]).count u = l.count u + (if u = v then 1 else 0) := by
  by_cases h : u = v
  · subst h; simp [List.count_append]
  · have hb : (v == u) = false := by simpa using (Ne.symm h)
    simp [List.count_append, List.count_singleton', h, hb]

theorem deferred_step (cb : Nat → MWorld → MWorld) (hcb : HCB cb) (t v : Nat)
    (w : MWorld) (hInv : RegInv t w) :
    ∃ w', deferredRegister cb v w = some w' ∧ RegInv t w' ∧
      (RegDone t w → RegDone t w') ∧ (v = t → RegDone t w') := by
  obtain ⟨r, hw, hcase⟩ := hInv
  by_cases hv : r.is_registered v = true
  · -- v already registered: mark is a no-op, no callback runs
    have h2 : (r.register v).2 = false := by rw [register_snd, hv]; rfl
    have h1 : (r.register v).1 = r := register_fst_of_true r v hv
    refine ⟨{ w with ledger := some (r.register v).1 }, ?_, ?_, ?_, ?_⟩
    · unfold deferredRegister; rw [hw]; simp [h2]
    · exact ⟨r, by simp [h1], by simpa [countCalls] using hcase⟩
    · rintro ⟨r₀, hw₀, hreg₀, hcnt₀⟩
      rw [hw] at hw₀; cases hw₀
      exact ⟨r, by simp [h1], hreg₀, by simpa [countCalls] using hcnt₀⟩
    · rintro rfl
      rcases hcase with ⟨hf, _⟩ | ⟨htr, hcnt⟩
      · rw [hv] at hf; exact Bool.noConfusion hf
      · exact ⟨r, by simp [h1], htr, by simpa [countCalls] using hcnt⟩
  · -- v fresh: mark, record the invocation, run the callback
    have hv' : r.is_registered v = false := by simpa using hv
    have h2 : (r.register v).2 = true := by rw [register_snd, hv']; rfl
    obtain ⟨w₁, hw₁led, hw₁calls, hstep⟩ :
        ∃ w₁ : MWorld, w₁.ledger = some (r.register v).1 ∧
          w₁.calls = w.calls ++ [v] ∧
          deferredRegister cb v w = some (cb v w₁) := by
      refine ⟨{ w with ledger := some (r.register v).1, calls := w.calls ++ [v] }, rfl, rfl, ?_⟩
      unfold deferredRegister; rw [hw]; simp [h2]
    obtain ⟨s', hs', hmono, hsame, hfresh⟩ := hcb v w₁ (r.register v).1 hw₁led
    have hc₁ : ∀ u, countCalls u w₁ = countCalls u w + (if u = v then 1 else 0) := by
      intro u
      unfold countCalls
      rw [hw₁calls]
      exact count_append_single w.calls u v
    have hmain : RegInv t (cb v w₁) ∧
        ((v = t ∨ r.is_registered t = true) → RegDone t (cb v w₁)) := by
      rcases eq_or_ne v t with rfl | hvt
      · -- first registration of t itself
        rcases hcase with ⟨_, hc0⟩ | ⟨htr, _⟩
        · have hr₁ : (r.register v).1.is_registered v = true := by
            rw [register_is_registered]; simp
          have hs't : s'.is_registered v = true := hmono v hr₁
          have hcnt := hsame v (by rw [hs't, hr₁])
          have hone : countCalls v (cb v w₁) = 1 := by
            rw [hcnt, hc₁ v, hc0]; simp
          exact ⟨⟨s', hs', Or.inr ⟨hs't, hone⟩⟩, fun _ => ⟨s', hs', hs't, hone⟩⟩
        · rw [hv'] at htr; exact Bool.noConfusion htr
      · -- registration of a different type v
        have hbv : (v == t) = false := by simpa using hvt
        have hr₁t : (r.register v).1.is_registered t = r.is_registered t := by
          rw [register_is_registered, hbv]; simp
        have hct : countCalls t w₁ = countCalls t w := by
          rw [hc₁ t]; simp [Ne.symm hvt]
        rcases hcase with ⟨hf, hc0⟩ | ⟨htr, hc1⟩
        · -- t still unregistered before this op
          cases hst : s'.is_registered t with
          | false =>
            have hcnt := hsame t (by rw [hst, hr₁t, hf])
            refine ⟨⟨s', hs', Or.inl ⟨hst, by rw [hcnt, hct, hc0]⟩⟩, ?_⟩
            rintro (rfl | htr)
            · exact absurd rfl hvt
            · rw [hf] at htr; exact Bool.noConfusion htr
          | true =>
            have hcnt := hfresh t hst (by rw [hr₁t, hf])
            have hone : countCalls t (cb v w₁) = 1 := by rw [hcnt, hct, hc0]
            exact ⟨⟨s', hs', Or.inr ⟨hst, hone⟩⟩, fun _ => ⟨s', hs', hst, hone⟩⟩
        · -- t already registered before this op
          have hst : s'.is_registered t = true := hmono t (by rw [hr₁t, htr])
          have hcnt := hsame t (by rw [hst, hr₁t, htr])
          have hone : countCalls t (cb v w₁) = 1 := by rw [hcnt, hct, hc1]
          exact ⟨⟨s', hs', Or.inr ⟨hst, hone⟩⟩, fun _ => ⟨s', hs', hst, hone⟩⟩
    refine ⟨cb v w₁, hstep, hmain.1, ?_, fun hvt => hmain.2 (Or.inl hvt)⟩
    rintro ⟨r₀, hw₀, hreg₀, _⟩
    rw [hw] at hw₀; cases hw₀
    exact hmain.2 (Or.inr hreg₀)

theorem world_eq_of_deferred (cb : Nat → MWorld → MWorld) (v : Nat) (w : MWorld)
    (r : RegisteredTypes) (hw : w.ledger = some r) (w' : MWorld)
    (hd : deferredRegister cb v w = some w') :
    worldRegister cb v w = w' ∨ worldRegister cb v w = flushCommands w' := by
  unfold deferredRegister at hd
  rw [hw] at hd
  unfold worldRegister
  rw [hw]
  by_cases h2 : (r.register v).2 = true
  · right
    simp only [h2, if_true, Option.some_inj] at hd
    simp only [Option.getD_some, h2, if_true]
    rw [hd]
  · left
    simp only [h2, if_false, Bool.false_eq_true, Option.some_inj] at hd
    simp only [Option.getD_some, h2, if_false]
    exact hd

theorem op_step (cb : Nat → MWorld → MWorld) (hcb : HCB cb) (t : Nat) (op : RegOp)
    (w : MWorld) (hInv : RegInv t w) :
    ∃ w', runOp cb op w = some w' ∧ RegInv t w' ∧
      (RegDone t w → RegDone t w') ∧ (op.target = t → RegDone t w') := by
  cases op with
  | deferred v => exact deferred_step cb hcb t v w hInv
  | hook v => exact deferred_step cb hcb t v w hInv
  | world v =>
    obtain ⟨r, hw, hcase⟩ := hInv
    obtain ⟨w', hd, hInv', hD, hT⟩ := deferred_step cb hcb t v w ⟨r, hw, hcase⟩
    refine ⟨worldRegister cb v w, rfl, ?_⟩
    rcases world_eq_of_deferred cb v w r hw w' hd with he | he
    · rw [he]; exact ⟨hInv', hD, hT⟩
    · rw [he]
      exact ⟨(RegInv_flush t w').mpr hInv',
        fun hdw => (RegDone_flush t w').mpr (hD hdw),
        fun ht => (RegDone_flush t w').mpr (hT ht)⟩

theorem runOps_inv (cb : Nat → MWorld → MWorld) (hcb : HCB cb) (t : Nat)
    (ops : List RegOp) (w : MWorld) (hInv : RegInv t w) :
    ∃ w', runOps cb ops w = some w' ∧ RegInv t w' ∧
      (RegDone t w → RegDone t w') ∧
      ((∃ op ∈ ops, op.target = t) → RegDone t w') := by
  induction ops generalizing w with
  | nil =>
    refine ⟨w, rfl, hInv, fun h => h, ?_⟩
    rintro ⟨op, hop, _⟩
    exact absurd hop (List.not_mem_nil op)
  | cons op ops ih =>
    obtain ⟨w₁, h₁, hInv₁, hD₁, hT₁⟩ := op_step cb hcb t op w hInv
    obtain ⟨w₂, h₂, hInv₂, hD₂, hT₂⟩ := ih w₁ hInv₁
    refine ⟨w₂, ?_, hInv₂, fun hd => hD₂ (hD₁ hd), ?_⟩
    · rw [runOps, h₁]
      exact h₂
    · rintro ⟨o, ho, hot⟩
      rcases List.mem_cons.mp ho with rfl | ho'
      · exact hD₂ (hT₁ hot)
      · exact hT₂ ⟨o, ho', hot⟩

/-- C1: with a well-behaved callback family (`HCB`), for any interleaved
sequence of registrations through the three paths (`World::register`,
`DeferredWorld::register`, the on-add hook), starting from a world whose
ledger is present, does not contain `T`, and whose callback-invocation
trace has no `T` entry: if at least one operation targets `T`, the whole
run succeeds and `T`'s registration callback has been invoked exactly
once, with `T` marked in the ledger. Since the statement holds for every
such sequence, it holds in particular for each prefix ending at the first
`T`-targeting operation: the single invocation happens on that first call
and the count stays 1 thereafter. -/
theorem C1_callback_runs_exactly_once (cb : Nat → MWorld → MWorld) (hcb : HCB cb)
    (t : Nat) (ops : List RegOp) (w : MWorld) (r : RegisteredTypes)
    (hw : w.ledger = some r) (hreg : r.is_registered t = false)
    (hcount : countCalls t w = 0) (hops : ∃ op ∈ ops, op.target = t) :
    (runOps cb ops w).isSome = true ∧
    countCalls t ((runOps cb ops w).getD w) = 1 ∧
    ledgerContains t ((runOps cb ops w).getD w) = true := by
  obtain ⟨w', hrun, _, _, hdone⟩ :=
    runOps_inv cb hcb t ops w ⟨r, hw, Or.inl ⟨hreg, hcount⟩⟩
  obtain ⟨r', hw', hregd, hcnt⟩ := hdone hops
  rw [hrun]
  exact ⟨rfl, by simpa using hcnt, by simp [ledgerContains, hw', hregd]⟩

theorem C1_callback_runs_exactly_once_witness :
    (runOps (fun _ x => x) [RegOp.hook 1, RegOp.hook 0, RegOp.world 0, RegOp.deferred 0]
      ⟨some ⟨[]⟩, [], [], []⟩).isSome = true ∧
    countCalls 0 ((runOps (fun _ x => x)
      [RegOp.hook 1, RegOp.hook 0, RegOp.world 0, RegOp.deferred 0]
      ⟨some ⟨[]⟩, [], [], []⟩).getD ⟨some ⟨[]⟩, [], [], []⟩) = 1 ∧
    ledgerContains 0 ((runOps (fun _ x => x)
      [RegOp.hook 1, RegOp.hook 0, RegOp.world 0, RegOp.deferred 0]
      ⟨some ⟨[]⟩, [], [], []⟩).getD ⟨some ⟨[]⟩, [], [], []⟩) = true :=
  C1_callback_runs_exactly_once (fun _ x => x)
    (fun _ _ s hx => ⟨s, hx, fun _ h => h, fun _ _ => rfl,
      fun _ h1 h2 => absurd h1 (by rw [h2]; exact Bool.noConfusion)⟩)
    0 [RegOp.hook 1, RegOp.hook 0, RegOp.world 0, RegOp.deferred 0]
    ⟨some ⟨[]⟩, [], [], []⟩ ⟨[]⟩ rfl (by decide) (by decide)
    ⟨RegOp.hook 0, by simp, rfl⟩

end BevyRegisterInWorld
